import Mathlib

/-!
Shallow embedding of the sales trend-analysis engine of `src/app.py`
(`analyze_sales_trends` and its helpers), together with proofs about the
claims of the specification.

Modelling conventions:
* Python `float` values are embedded as exact rationals `ℚ`; `int` as `ℤ`.
* Python strings used as data (ASIN, StoreCode, ...) are `List Char`; the
  severity literals keep their Python `str` form as Lean `String`.
* A record's `WeekStart` is an already-parsed date (`Option Date`): the
  transport layer parses `'%Y-%m-%d'`; `none` models an unparseable string,
  which `get_week_date` maps to the sentinel `datetime(2000, 1, 1)` exactly
  as the `except` branch does.
* Python's stable `list.sort` is modelled by `List.insertionSort` (any two
  stable sorts agree for a total preorder key, so this is extensionally the
  behaviour of the source).
* The human-readable Spanish reason strings are abstracted to `ReasonTag`
  constructors, one per `alert_reasons.append` site; display-only formatted
  window labels (`window_descriptor`, `format_iso_week`) carry no data used
  by any rule and are not modelled.
* Python exceptions that `analyze_sales_trends` can raise are modelled by
  `Except AErr`: the `ValueError` of `asin, store = key.split('|')` and the
  `IndexError` of `last_n_weeks[-2]`/`[-1]`.
-/

set_option maxRecDepth 40000

deriving instance DecidableEq for Except

/-- A calendar date, as carried by Python's `datetime`. -/
structure Date where
  year : Int
  month : Nat
  day : Nat
deriving DecidableEq, Repr

/-- Gregorian leap-year test (as used by Python's `datetime`). -/
def isLeapYear (y : Int) : Bool :=
  (y % 4 == 0 && y % 100 != 0) || y % 400 == 0

def monthLengths (y : Int) : List Nat :=
  [31, if isLeapYear y then 29 else 28, 31, 30, 31, 30, 31, 31, 30, 31, 30, 31]

def daysBeforeMonth (y : Int) (m : Nat) : Nat :=
  ((monthLengths y).take (m - 1)).sum

/-- Proleptic-Gregorian ordinal of a date (Python's `datetime.toordinal`):
day 1 is 0001-01-01. -/
def ymd2ord (d : Date) : Int :=
  365 * (d.year - 1) + (d.year - 1).fdiv 4 - (d.year - 1).fdiv 100 + (d.year - 1).fdiv 400
    + daysBeforeMonth d.year d.month + d.day

/-- Ordinal of the Monday starting ISO week 1 of year `y`
(Python `datetime._isoweek1monday`). -/
def isoweek1monday (y : Int) : Int :=
  let firstday := ymd2ord ⟨y, 1, 1⟩
  let firstweekday := (firstday + 6) % 7
  let w := firstday - firstweekday
  if firstweekday > 3 then w + 7 else w

/-- ISO year and ISO week number of a date (Python `datetime.isocalendar`,
without the weekday component). -/
def isocalendar (d : Date) : Int × Nat :=
  let today := ymd2ord d
  let week := (today - isoweek1monday d.year).fdiv 7
  if week < 0 then
    (d.year - 1, ((today - isoweek1monday (d.year - 1)).fdiv 7 + 1).toNat)
  else if week ≥ 52 then
    if today ≥ isoweek1monday (d.year + 1) then (d.year + 1, 1)
    else (d.year, (week + 1).toNat)
  else (d.year, (week + 1).toNat)

/-- Embeds `SalesRow` of `app.py` (normalized constructor output; the `field_N`
aliasing of the transport layer is out of scope). -/
structure SalesRow where
  ASIN : List Char
  ProductTitle : List Char
  Brand : List Char
  StoreCode : List Char
  Revenue : ℚ
  COGS : ℚ
  Units : Int
  Returns : Int
  WeekStart : Option Date
  FiscalWeek : List Char
deriving DecidableEq, Repr

instance : Inhabited SalesRow := ⟨⟨[], [], [], [], 0, 0, 0, 0, none, []⟩⟩

/-- Embeds `SalesRow.get_week_date`: the parsed `WeekStart`, or the sentinel
`datetime(2000, 1, 1)` when parsing failed. -/
def get_week_date (r : SalesRow) : Date :=
  r.WeekStart.getD ⟨2000, 1, 1⟩

/-- Embeds `SalesRow.get_year`: the **calendar** year of the week date
(Python `datetime.year`). -/
def get_year (r : SalesRow) : Int :=
  (get_week_date r).year

/-- Embeds `SalesRow.get_week_number`: the ISO week number
(`datetime.isocalendar()[1]`). -/
def get_week_number (r : SalesRow) : Nat :=
  (isocalendar (get_week_date r)).2

/-- ISO year of a record's week date (`datetime.isocalendar()[0]`).
Not used by the source engine; needed to state the spec's ISO-year claim. -/
def iso_year (r : SalesRow) : Int :=
  (isocalendar (get_week_date r)).1

/-- Sort key used by every `sort`/`sorted` call in the engine:
`datetime` comparison equals comparison of ordinals. -/
def dateKey (r : SalesRow) : Int :=
  ymd2ord (get_week_date r)

def dateLe (a b : SalesRow) : Prop :=
  dateKey a ≤ dateKey b

instance : DecidableRel dateLe :=
  fun a b => Int.decLe (dateKey a) (dateKey b)

instance : IsTotal SalesRow dateLe :=
  ⟨fun a b => Int.le_total (dateKey a) (dateKey b)⟩

instance : IsTrans SalesRow dateLe :=
  ⟨fun _ _ _ hab hbc => le_trans hab hbc⟩

/-- Embeds `sorted(rows, key=lambda x: x.get_week_date())` — Python's stable sort. -/
def sortByDate (rows : List SalesRow) : List SalesRow :=
  rows.insertionSort dateLe

/-- The four running sums of the `calculate_slope` loop
(`sx`, `sxx` depend only on `n`; `sy`, `sxy` on the values). -/
def sumX (n : Nat) : ℚ := ∑ i in Finset.range n, (i : ℚ)

def sumXX (n : Nat) : ℚ := ∑ i in Finset.range n, (i : ℚ) * (i : ℚ)

def sumY (values : List ℚ) : ℚ := ∑ i in Finset.range values.length, values.getD i 0

def sumXY (values : List ℚ) : ℚ :=
  ∑ i in Finset.range values.length, (i : ℚ) * values.getD i 0

/-- Embeds `calculate_slope` of `app.py`: least-squares slope of the values against
positions `0..n-1`, with the `n < 2` and zero-denominator guards. -/
def calculate_slope (values : List ℚ) : ℚ :=
  let n := values.length
  if n < 2 then 0
  else
    let d := (n : ℚ) * sumXX n - sumX n * sumX n
    if d = 0 then 0 else ((n : ℚ) * sumXY values - sumX n * sumY values) / d

/-- The `metric` argument of `calculate_yoy_change` (`'Units'` / `'Revenue'`). -/
inductive Metric where
  | Units
  | Revenue
deriving DecidableEq, Repr

def metricValue (m : Metric) (r : SalesRow) : ℚ :=
  match m with
  | .Units => (r.Units : ℚ)
  | .Revenue => r.Revenue

/-- Embeds `calculate_yoy_change` of `app.py`. -/
def calculate_yoy_change (currentWeeks previousYearWeeks : List SalesRow) (m : Metric) : ℚ :=
  let currentTotal := (currentWeeks.map (metricValue m)).sum
  let previousTotal := (previousYearWeeks.map (metricValue m)).sum
  if previousTotal = 0 then 0 else (currentTotal - previousTotal) / previousTotal

/-- Embeds `get_last_n_weeks` of `app.py`. The `n = 0` branch mirrors Python's
`sorted_rows[-0:]`, which is the whole list, not the empty slice. -/
def get_last_n_weeks (rows : List SalesRow) (n : Nat) : List SalesRow :=
  let sortedRows := sortByDate rows
  if sortedRows.length ≥ n then
    if n = 0 then sortedRows else sortedRows.drop (sortedRows.length - n)
  else sortedRows

/-- Embeds `get_same_weeks_previous_year` of `app.py`: matches on the **calendar**
year of the window's first record minus one (`get_year`) and on membership
of the ISO week number in the window's week numbers. -/
def get_same_weeks_previous_year (rows currentWeeks : List SalesRow) : List SalesRow :=
  match currentWeeks with
  | [] => []
  | c0 :: _ =>
    let currentWeekNumbers := currentWeeks.map get_week_number
    let targetYear := get_year c0 - 1
    sortByDate (rows.filter
      (fun r => get_year r == targetYear && decide (get_week_number r ∈ currentWeekNumbers)))

/-- The spec's description of the PriorYearWindow, for comparison: it asks
for the **ISO** year of the window's first record minus one, where the code
uses the calendar year. -/
def specPriorYearWindow (rows currentWeeks : List SalesRow) : List SalesRow :=
  match currentWeeks with
  | [] => []
  | c0 :: _ =>
    let currentWeekNumbers := currentWeeks.map get_week_number
    let targetYear := iso_year c0 - 1
    sortByDate (rows.filter
      (fun r => iso_year r == targetYear && decide (get_week_number r ∈ currentWeekNumbers)))

/-- The scanning loop of `detect_consecutive_weeks_down`: `prev` is
`units[i-1]`, `cnt` the current `consecutive_down` counter, `target` the
Python value `min_weeks - 1` (truncated at 0 like the `>=` comparison). -/
def cdownGo (prev : Int) (rest : List Int) (cnt target : Nat) : Bool :=
  match rest with
  | [] => false
  | u :: tl =>
    if u < prev then
      if cnt + 1 ≥ target then true else cdownGo u tl (cnt + 1) target
    else cdownGo u tl 0 target

/-- Embeds `detect_consecutive_weeks_down` of `app.py`. -/
def detect_consecutive_weeks_down (weeks : List SalesRow) (minWeeks : Nat) : Bool :=
  if weeks.length < minWeeks then false
  else
    match weeks.map (fun w => w.Units) with
    | [] => false
    | u :: rest => cdownGo u rest 0 (minWeeks - 1)

/-- Length of the strictly-decreasing run starting at `prev` into `rest`
(number of decreasing transitions taken from the front). Proof device for
the scan. -/
def descLen (prev : Int) : List Int → Nat
  | [] => 0
  | u :: tl => if u < prev then descLen u tl + 1 else 0

/-- Largest streak value the scan can reach when started at `prev` with
current counter `cnt`. Proof device for the scan. -/
def maxStreak (prev : Int) (rest : List Int) (cnt : Nat) : Nat :=
  match rest with
  | [] => cnt
  | u :: tl => if u < prev then maxStreak u tl (cnt + 1) else max cnt (maxStreak u tl 0)

/-- Maximum number of consecutive strictly-decreasing transitions anywhere
in the list. Proof device for the scan. -/
def maxRun : List Int → Nat
  | [] => 0
  | u :: tl => max (descLen u tl) (maxRun tl)

/-- The claim's notion of "an unbroken run of `m` weeks of descent": some
infix of length `m` whose adjacent pairs strictly decrease. -/
def hasDescentRun (l : List Int) (m : Nat) : Prop :=
  ∃ pre seg post, l = pre ++ seg ++ post ∧ seg.length = m ∧
    seg.Chain' (fun a b => b < a)

/-- Embeds `calculate_return_rate` of `app.py`. -/
def calculate_return_rate (weeks : List SalesRow) : ℚ :=
  let totalUnits : Int := (weeks.map (fun w => w.Units)).sum
  let totalReturns : Int := (weeks.map (fun w => w.Returns)).sum
  if totalUnits = 0 then 0 else (totalReturns : ℚ) / (totalUnits : ℚ)

/-- Embeds `find_same_week_previous_year` of `app.py` (first match wins). -/
def find_same_week_previous_year (previousYearWeeks : List SalesRow) (currentWeek : SalesRow) :
    Option SalesRow :=
  previousYearWeeks.find? (fun r => get_week_number r == get_week_number currentWeek)

/-- Embeds `statistics.mean` on a nonempty list (all call sites are nonempty). -/
def listMean (l : List ℚ) : ℚ :=
  l.sum / (l.length : ℚ)

/-- The inline normalized-slope guard
`slope / avg if avg > 0 else 0.0` used for both units and returns. -/
def normalizedSlope (slope avg : ℚ) : ℚ :=
  if avg > 0 then slope / avg else 0

/-- The inline WoW guard of block 5.A:
`(last - prev) / prev` when `prev_week.Units > 0`, else undefined. -/
def wowChangeOf (lastUnits prevUnits : Int) : Option ℚ :=
  if prevUnits > 0 then some (((lastUnits : ℚ) - (prevUnits : ℚ)) / (prevUnits : ℚ)) else none

/-- Python `round(x, d)`: round half to even at `d` decimal digits
(exact-decimal behaviour of the float rounding). -/
def roundHalfEven (x : ℚ) : Int :=
  let n := ⌊x⌋
  let f := x - n
  if f < 1 / 2 then n
  else if 1 / 2 < f then n + 1
  else if n % 2 = 0 then n else n + 1

def pyRound (x : ℚ) (d : Nat) : ℚ :=
  (roundHalfEven (x * 10 ^ d) : ℚ) / 10 ^ d

/-- The `THRESHOLDS` configuration dictionary. `minReturnRate` models the
key `'minReturnRatio'`. -/
structure Thresholds where
  minAvgUnits4W : ℚ
  minWeeksDown : Nat
  minYoYDropPct : ℚ
  minNormSlopeUnits : ℚ
  minWeeksUpReturns : Nat
  minReturnRate : ℚ
  minNormSlopeReturns : ℚ
  minRevenue4W : ℚ
  minWoWDropPct : ℚ
  minYoYSameWeekDropPct : ℚ
  windowWeeks : Nat
deriving DecidableEq, Repr

/-- The default `THRESHOLDS` values of `app.py`. -/
def defaultThresholds : Thresholds :=
  { minAvgUnits4W := 30
    minWeeksDown := 3
    minYoYDropPct := -15 / 100
    minNormSlopeUnits := -5 / 100
    minWeeksUpReturns := 3
    minReturnRate := 8 / 100
    minNormSlopeReturns := 5 / 100
    minRevenue4W := 1000
    minWoWDropPct := -12 / 100
    minYoYSameWeekDropPct := -15 / 100
    windowWeeks := 4 }

/-- One tag per `alert_reasons.append` site, in source order:
rule 1 = negative units trend, rule 2 = YoY window drop, rule 3 =
consecutive weeks down, rule 4 = high return ratio, rule 5 = growing
returns trend, rule 6 = WoW drop (block 5.A), rule 7 = same-ISO-week
prior-year drop (block 5.B). -/
inductive ReasonTag where
  | rule1
  | rule2
  | rule3
  | rule4
  | rule5
  | rule6
  | rule7
deriving DecidableEq, Repr

/-- The mutable pair `(alert_reasons, alert_severity)` of the rule block. -/
structure RuleState where
  reasons : List ReasonTag
  sev : String
deriving DecidableEq, Repr

/-- Initial state `alert_reasons = []; alert_severity = 'INFO'`. -/
def initRuleState : RuleState := ⟨[], "INFO"⟩

/-- Rules 1 and 2: on firing, append the reason and assign the target
severity unconditionally. -/
def setSevStep (fires : Bool) (tag : ReasonTag) (newSev : String) (s : RuleState) : RuleState :=
  if fires then ⟨s.reasons ++ [tag], newSev⟩ else s

/-- Rules 3-7: on firing, append the reason and raise `'INFO'` to
`'WARNING'`, leaving any other severity unchanged. -/
def warnStep (fires : Bool) (tag : ReasonTag) (s : RuleState) : RuleState :=
  if fires then ⟨s.reasons ++ [tag], if s.sev = "INFO" then "WARNING" else s.sev⟩ else s

/-- The successive states of the rule block, given which of the seven rule
conditions hold: `[s0, s1, ..., s7]` with `s0 = initRuleState`. -/
def runChain (c1 c2 c3 c4 c5 c6 c7 : Bool) : List RuleState :=
  let s0 := initRuleState
  let s1 := setSevStep c1 .rule1 "WARNING" s0
  let s2 := setSevStep c2 .rule2 "CRITICAL" s1
  let s3 := warnStep c3 .rule3 s2
  let s4 := warnStep c4 .rule4 s3
  let s5 := warnStep c5 .rule5 s4
  let s6 := warnStep c6 .rule6 s5
  let s7 := warnStep c7 .rule7 s6
  [s0, s1, s2, s3, s4, s5, s6, s7]

/-- Final `(alert_reasons, alert_severity)` after all seven rules. -/
def runRules (c1 c2 c3 c4 c5 c6 c7 : Bool) : RuleState :=
  (runChain c1 c2 c3 c4 c5 c6 c7).getLastD initRuleState

/-- The `Current_4W` block of an alert (display-rounded metrics; the
deprecated duplicate trend fields are not repeated). -/
structure CurrentBlock where
  AvgUnitsPerWeek : ℚ
  TotalUnits : Int
  TotalRevenue : ℚ
  TotalReturns : Int
  ReturnRate : ℚ
  WindowWeeks : Nat
  UnitsTrendPerWeekPct : ℚ
  ReturnsTrendPerWeekPct : ℚ
deriving DecidableEq, Repr

/-- The `YoY_Comparison` block of an alert. -/
structure YoYBlock where
  UnitsChange : ℚ
  RevenueChange : ℚ
  DataAvailable : Bool
deriving DecidableEq, Repr

/-- The `Comparisons` block of an alert. -/
structure CompBlock where
  WoWUnitsChange : Option ℚ
  YoYSameWeekUnitsChange : Option ℚ
  YoYSameWeekDataAvailable : Bool
deriving DecidableEq, Repr

/-- One element of the `alerts` list (`product_info` in the source);
`WeeklyDetail` keeps the window rows themselves. -/
structure Alert where
  ASIN : List Char
  ProductTitle : List Char
  Brand : List Char
  StoreCode : List Char
  Severity : String
  AlertReasons : List ReasonTag
  Current4W : CurrentBlock
  YoYComparison : YoYBlock
  Comparisons : CompBlock
  WeeklyDetail : List SalesRow
deriving DecidableEq, Repr

instance : Inhabited Alert :=
  ⟨⟨[], [], [], [], "", [], ⟨0, 0, 0, 0, 0, 0, 0, 0⟩, ⟨0, 0, false⟩, ⟨none, none, false⟩, []⟩⟩

/-- Embeds the dictionary `severity_order` mapping CRITICAL to 0, WARNING to 1, INFO to 2, read with
`.get(x, 3)`. -/
def severityRank (s : String) : Nat :=
  if s = "CRITICAL" then 0 else if s = "WARNING" then 1 else if s = "INFO" then 2 else 3

/-- The final sort's key order: severity rank, then the (rounded) YoY units
change, ascending. -/
def rankLe (a b : Alert) : Prop :=
  severityRank a.Severity < severityRank b.Severity ∨
    (severityRank a.Severity = severityRank b.Severity ∧
      a.YoYComparison.UnitsChange ≤ b.YoYComparison.UnitsChange)

instance : DecidableRel rankLe := fun a b => by
  unfold rankLe
  infer_instance

instance : IsTotal Alert rankLe := by
  constructor
  intro a b
  rcases Nat.lt_trichotomy (severityRank a.Severity) (severityRank b.Severity) with h | h | h
  · exact Or.inl (Or.inl h)
  · rcases le_total a.YoYComparison.UnitsChange b.YoYComparison.UnitsChange with h2 | h2
    · exact Or.inl (Or.inr ⟨h, h2⟩)
    · exact Or.inr (Or.inr ⟨h.symm, h2⟩)
  · exact Or.inr (Or.inl h)

instance : IsTrans Alert rankLe := by
  constructor
  intro a b c hab hbc
  rcases hab with h1 | ⟨h1, h1q⟩
  · rcases hbc with h2 | ⟨h2, _⟩
    · exact Or.inl (lt_trans h1 h2)
    · exact Or.inl (h2 ▸ h1)
  · rcases hbc with h2 | ⟨h2, h2q⟩
    · exact Or.inl (h1 ▸ h2)
    · exact Or.inr ⟨h1.trans h2, le_trans h1q h2q⟩

/-- Exceptions `analyze_sales_trends` can raise: the `ValueError` of
`asin, store = key.split('|')` and the `IndexError` of
`last_n_weeks[-1]` / `last_n_weeks[-2]`. -/
inductive AErr where
  | unpackErr
  | indexErr
deriving DecidableEq, Repr

/-- Embeds `key.split('|')` on char lists. -/
def splitBar (l : List Char) : List (List Char) :=
  match l with
  | [] => [[]]
  | c :: tl =>
    let r := splitBar tl
    if c = '|' then [] :: r
    else
      match r with
      | [] => [[c]]
      | h :: t => (c :: h) :: t

/-- Embeds the key expression of line 189 of `app.py`: ASIN, then the bar separator, then StoreCode. -/
def makeKey (r : SalesRow) : List Char :=
  r.ASIN ++ '|' :: r.StoreCode

/-- Append `r` to the group of key `k`, creating the group at the end on
first occurrence — Python `defaultdict(list)` with dict insertion order. -/
def addToGroups (gs : List (List Char × List SalesRow)) (k : List Char) (r : SalesRow) :
    List (List Char × List SalesRow) :=
  match gs with
  | [] => [(k, [r])]
  | (k2, l) :: tl => if k2 = k then (k2, l ++ [r]) :: tl else (k2, l) :: addToGroups tl k r

/-- The `grouped_data` build-up loop. -/
def groupRows (rows : List SalesRow) : List (List Char × List SalesRow) :=
  rows.foldl (fun gs r => addToGroups gs (makeKey r) r) []

/-- First-match association lookup into the grouped data (with `[]` for a
missing key), used to state grouping facts. -/
def lookupGroup (gs : List (List Char × List SalesRow)) (k : List Char) : List SalesRow :=
  match gs with
  | [] => []
  | (k2, l) :: tl => if k2 = k then l else lookupGroup tl k

/-- Metrics, rule conditions and alert construction of the loop body, after
the window guard and the `last_n_weeks[-1]` / `[-2]` accesses have
succeeded: `none` when no rule fired, `some alert` otherwise. -/
def buildAlert (cfg : Thresholds) (asin store : List Char)
    (lastN previousYearWeeks : List SalesRow) (lastWeek prevWeek : SalesRow) : Option Alert :=
  let unitsCurrent : List ℚ := lastN.map (fun w => (w.Units : ℚ))
  let returnsCurrent : List ℚ := lastN.map (fun w => (w.Returns : ℚ))
  let avgUnits : ℚ := listMean unitsCurrent
  let totalRevenue : ℚ := (lastN.map (fun w => w.Revenue)).sum
  let totalUnits : Int := (lastN.map (fun w => w.Units)).sum
  let totalReturns : Int := (lastN.map (fun w => w.Returns)).sum
  let unitsSlope := calculate_slope unitsCurrent
  let returnsSlope := calculate_slope returnsCurrent
  let normalizedUnitsSlope := normalizedSlope unitsSlope avgUnits
  let avgReturns := if returnsCurrent.isEmpty then 1 else listMean returnsCurrent
  let normalizedReturnsSlope := normalizedSlope returnsSlope avgReturns
  let yoyDataAvailable : Bool :=
    decide (previousYearWeeks.length ≥ max 3 (cfg.windowWeeks - 1))
  let yoyUnitsChange : ℚ :=
    if yoyDataAvailable then calculate_yoy_change lastN previousYearWeeks .Units else 0
  let yoyRevenueChange : ℚ :=
    if yoyDataAvailable then calculate_yoy_change lastN previousYearWeeks .Revenue else 0
  let returnRate := calculate_return_rate lastN
  let wowChange := wowChangeOf lastWeek.Units prevWeek.Units
  let sameWeekPrevYear :=
    if previousYearWeeks.isEmpty then none
    else find_same_week_previous_year previousYearWeeks lastWeek
  let yoySameWeekChange : Option ℚ :=
    match sameWeekPrevYear with
    | some m =>
      if 0 < m.Units then
        some (((lastWeek.Units : ℚ) - (m.Units : ℚ)) / (m.Units : ℚ))
      else none
    | none => none
  let c1 := decide (normalizedUnitsSlope < cfg.minNormSlopeUnits) &&
    decide (avgUnits ≥ cfg.minAvgUnits4W)
  let c2 := yoyDataAvailable && decide (yoyUnitsChange < cfg.minYoYDropPct)
  let c3 := detect_consecutive_weeks_down lastN cfg.minWeeksDown
  let c4 := decide (returnRate > cfg.minReturnRate)
  let c5 := decide (normalizedReturnsSlope > cfg.minNormSlopeReturns) &&
    decide (totalReturns > 5)
  let c6 :=
    match wowChange with
    | some w => decide (w < cfg.minWoWDropPct) && decide (avgUnits ≥ cfg.minAvgUnits4W)
    | none => false
  let c7 :=
    match yoySameWeekChange with
    | some q =>
      decide (q < cfg.minYoYSameWeekDropPct) && decide (avgUnits ≥ cfg.minAvgUnits4W)
    | none => false
  let st := runRules c1 c2 c3 c4 c5 c6 c7
  if st.reasons.isEmpty then none
  else
    some
      { ASIN := asin
        ProductTitle := (lastN.headD default).ProductTitle
        Brand := (lastN.headD default).Brand
        StoreCode := store
        Severity := st.sev
        AlertReasons := st.reasons
        Current4W :=
          { AvgUnitsPerWeek := pyRound avgUnits 2
            TotalUnits := totalUnits
            TotalRevenue := pyRound totalRevenue 2
            TotalReturns := totalReturns
            ReturnRate := pyRound returnRate 3
            WindowWeeks := lastN.length
            UnitsTrendPerWeekPct := pyRound normalizedUnitsSlope 4
            ReturnsTrendPerWeekPct := pyRound normalizedReturnsSlope 4 }
        YoYComparison :=
          { UnitsChange := pyRound yoyUnitsChange 3
            RevenueChange := pyRound yoyRevenueChange 3
            DataAvailable := yoyDataAvailable }
        Comparisons :=
          { WoWUnitsChange := wowChange.map (fun q => pyRound q 3)
            YoYSameWeekUnitsChange := yoySameWeekChange.map (fun q => pyRound q 3)
            YoYSameWeekDataAvailable := sameWeekPrevYear.isSome }
        WeeklyDetail := lastN }

/-- The body of the `for key, data_list in grouped_data.items()` loop:
one group's analysis outcome (`none` = no alert, `some` = one alert), or
the exception it raises. -/
def analyzeGroup (cfg : Thresholds) (key : List Char) (g : List SalesRow) :
    Except AErr (Option Alert) :=
  match splitBar key with
  | [asin, store] =>
    let dataList := sortByDate g
    let lastN := get_last_n_weeks dataList cfg.windowWeeks
    if lastN.length < cfg.windowWeeks then Except.ok none
    else
      let previousYearWeeks := get_same_weeks_previous_year dataList lastN
      match lastN.reverse with
      | lastWeek :: prevWeek :: _ =>
        Except.ok (buildAlert cfg asin store lastN previousYearWeeks lastWeek prevWeek)
      | _ => Except.error AErr.indexErr
  | _ => Except.error AErr.unpackErr

/-- The loop over `grouped_data.items()`, collecting alerts in encounter
order; an exception in any iteration aborts the whole analysis. -/
def processGroups (cfg : Thresholds) : List (List Char × List SalesRow) →
    Except AErr (List Alert)
  | [] => Except.ok []
  | (k, g) :: tl =>
    match analyzeGroup cfg k g with
    | Except.error e => Except.error e
    | Except.ok a =>
      match processGroups cfg tl with
      | Except.error e => Except.error e
      | Except.ok rest =>
        match a with
        | some alert => Except.ok (alert :: rest)
        | none => Except.ok rest

/-- Embeds `analyze_sales_trends` of `app.py`: group, analyze each group, then the
final stable sort by `(severity_order.get(sev, 3), yoy_units_change)`. -/
def analyze_sales_trends (cfg : Thresholds) (rows : List SalesRow) : Except AErr (List Alert) :=
  (processGroups cfg (groupRows rows)).map (fun alerts => alerts.insertionSort rankLe)

/-- Convenience constructor for concrete test records. -/
def mkRow (asin store : List Char) (units returns : Int) (rev : ℚ) (d : Date) : SalesRow :=
  { ASIN := asin
    ProductTitle := []
    Brand := []
    StoreCode := store
    Revenue := rev
    COGS := 0
    Units := units
    Returns := returns
    WeekStart := some d
    FiscalWeek := [] }

/-- Scenario of C3: four consecutive weeks (ISO weeks 36-39 of 2024) with
units 100, 90, 80, 70 and no prior-year data. -/
def c3rows : List SalesRow :=
  [mkRow "A1".toList "IT".toList 100 0 0 ⟨2024, 9, 2⟩,
   mkRow "A1".toList "IT".toList 90 0 0 ⟨2024, 9, 9⟩,
   mkRow "A1".toList "IT".toList 80 0 0 ⟨2024, 9, 16⟩,
   mkRow "A1".toList "IT".toList 70 0 0 ⟨2024, 9, 23⟩]

/-- Scenario of C2: the C3 window plus one prior-year record in the same
ISO week (week 39 of 2023) with zero units. -/
def c2prior : SalesRow :=
  mkRow "A1".toList "IT".toList 0 0 0 ⟨2023, 9, 25⟩

def c2rows : List SalesRow := c3rows ++ [c2prior]

def c2key : List Char := makeKey c2prior

/-- The alert the engine produces on the C2 scenario (extracted from the
computation itself; the theorems pin down its observable fields). -/
def c2alert : Alert :=
  (((analyzeGroup defaultThresholds c2key c2rows).toOption).getD none).getD default

/-- The last and second-to-last window rows of the C2/C3 scenario. -/
def c2lastRow : SalesRow := mkRow "A1".toList "IT".toList 70 0 0 ⟨2024, 9, 23⟩

def c2prevRow : SalesRow := mkRow "A1".toList "IT".toList 80 0 0 ⟨2024, 9, 16⟩

/-- The unsorted alert list the engine produces on the C3 scenario. -/
def c3preAlerts : List Alert :=
  (processGroups defaultThresholds (groupRows c3rows)).toOption.getD []

/-- The final output of the engine on the C3 scenario. -/
def c3outAlerts : List Alert :=
  (analyze_sales_trends defaultThresholds c3rows).toOption.getD []

/-- The alert the engine produces on the C3 scenario. -/
def c3alert : Alert :=
  (((analyzeGroup defaultThresholds c2key c3rows).toOption).getD none).getD default

/-- The severity ordering INFO < WARNING < CRITICAL of the spec's glossary,
as a numeric level (used to state the escalation invariant). -/
def sevLevel (s : String) : Nat :=
  if s = "CRITICAL" then 2 else if s = "WARNING" then 1 else 0

/-- Two records with rising units, for the minWeeks = 1 edge case of C8. -/
def c8pair : List SalesRow :=
  [mkRow "A1".toList "IT".toList 5 0 0 ⟨2024, 9, 2⟩,
   mkRow "A1".toList "IT".toList 6 0 0 ⟨2024, 9, 9⟩]

/-- The spec's example units 50, 48, 44, 40 (descending run of 4). -/
def c8down : List SalesRow :=
  [mkRow "A1".toList "IT".toList 50 0 0 ⟨2024, 9, 2⟩,
   mkRow "A1".toList "IT".toList 48 0 0 ⟨2024, 9, 9⟩,
   mkRow "A1".toList "IT".toList 44 0 0 ⟨2024, 9, 16⟩,
   mkRow "A1".toList "IT".toList 40 0 0 ⟨2024, 9, 23⟩]

/-- The spec's example units 50, 48, 49, 40 (run broken by the rise). -/
def c8broken : List SalesRow :=
  [mkRow "A1".toList "IT".toList 50 0 0 ⟨2024, 9, 2⟩,
   mkRow "A1".toList "IT".toList 48 0 0 ⟨2024, 9, 9⟩,
   mkRow "A1".toList "IT".toList 49 0 0 ⟨2024, 9, 16⟩,
   mkRow "A1".toList "IT".toList 40 0 0 ⟨2024, 9, 23⟩]

/-- A record whose date 2024-01-01 has calendar year 2024 and ISO year 2024. -/
def c1janRow : SalesRow := mkRow "A1".toList "IT".toList 7 0 0 ⟨2024, 1, 1⟩

/-- A record whose date 2024-12-30 has calendar year 2024 but ISO year 2025
(ISO week 1 of 2025). -/
def c1decRow : SalesRow := mkRow "A1".toList "IT".toList 9 0 0 ⟨2024, 12, 30⟩

/-- Concrete alert pair of the C5 example: A is (CRITICAL, yoy = -0.30). -/
def c5alertA : Alert :=
  { (default : Alert) with
      ASIN := "A".toList
      Severity := "CRITICAL"
      YoYComparison := ⟨-30 / 100, 0, true⟩ }

/-- Concrete alert pair of the C5 example: B is (WARNING, yoy = -0.50). -/
def c5alertB : Alert :=
  { (default : Alert) with
      ASIN := "B".toList
      Severity := "WARNING"
      YoYComparison := ⟨-50 / 100, 0, true⟩ }

/-- One lone record, making `last_n_weeks[-2]` out of bounds when
`windowWeeks = 1`. -/
def c9row : SalesRow := mkRow "A1".toList "IT".toList 5 0 0 ⟨2024, 9, 2⟩

/-- The default configuration with `windowWeeks` set to 1. -/
def window1Thresholds : Thresholds := { defaultThresholds with windowWeeks := 1 }

/-- A record whose ASIN contains the `'|'` separator. -/
def c10badRow : SalesRow := mkRow "A|1".toList "IT".toList 5 0 0 ⟨2024, 9, 2⟩

/-! ## Theorems -/

theorem c6_yoy_guard (cur prev : List SalesRow) (m : Metric)
    (h : (prev.map (metricValue m)).sum = 0) : calculate_yoy_change cur prev m = 0 := by
  unfold calculate_yoy_change
  simp [h]

theorem c6_return_rate_guard (weeks : List SalesRow)
    (h : (weeks.map (fun w => w.Units)).sum = 0) : calculate_return_rate weeks = 0 := by
  simp only [calculate_return_rate]
  rw [if_pos h]

theorem c6_norm_slope_guard (s a : ℚ) (h : a ≤ 0) : normalizedSlope s a = 0 := by
  unfold normalizedSlope
  rw [if_neg (not_lt.mpr h)]

theorem c6_wow_guard (lastU prevU : Int) (h : prevU = 0) : wowChangeOf lastU prevU = none := by
  unfold wowChangeOf
  rw [if_neg]
  simp [h]

/-- C6: every zero-denominator ratio in the engine takes its guarded neutral
value: `calculate_yoy_change` is 0 when the prior-year total is 0 (for any
current weeks), `calculate_return_rate` is 0 when the window's total units
are 0, the normalized slope is 0 when the window mean is ≤ 0, and the WoW
change is `none` when the second-to-last week's units are 0. -/
theorem c6_division_guards :
    (∀ (cur prev : List SalesRow) (m : Metric),
      (prev.map (metricValue m)).sum = 0 → calculate_yoy_change cur prev m = 0)
    ∧ (∀ weeks : List SalesRow,
      (weeks.map (fun w => w.Units)).sum = 0 → calculate_return_rate weeks = 0)
    ∧ (∀ s a : ℚ, a ≤ 0 → normalizedSlope s a = 0)
    ∧ (∀ lastU prevU : Int, prevU = 0 → wowChangeOf lastU prevU = none) :=
  ⟨c6_yoy_guard, c6_return_rate_guard, c6_norm_slope_guard, c6_wow_guard⟩

/-- Witness for C6 at concrete inputs. -/
theorem c6_division_guards_witness :
    calculate_yoy_change [mkRow [] [] 7 0 50 ⟨2024, 9, 2⟩] [] Metric.Units = 0
    ∧ calculate_return_rate [mkRow [] [] 0 3 0 ⟨2024, 9, 2⟩] = 0
    ∧ normalizedSlope 5 0 = 0
    ∧ wowChangeOf 3 0 = none :=
  ⟨c6_division_guards.1 _ [] Metric.Units rfl,
   c6_division_guards.2.1 _ (by with_unfolding_all decide),
   c6_division_guards.2.2.1 5 0 le_rfl,
   c6_division_guards.2.2.2 3 0 rfl⟩

theorem sumX_eq (n : Nat) : sumX n = n * ((n : ℚ) - 1) / 2 := by
  unfold sumX
  induction n with
  | zero => simp
  | succ k ih =>
    rw [Finset.sum_range_succ, ih]
    push_cast
    ring

theorem sumXX_eq (n : Nat) : sumXX n = n * ((n : ℚ) - 1) * (2 * n - 1) / 6 := by
  unfold sumXX
  induction n with
  | zero => simp
  | succ k ih =>
    rw [Finset.sum_range_succ, ih]
    push_cast
    ring

theorem slope_denom_eq (n : Nat) :
    (n : ℚ) * sumXX n - sumX n * sumX n = (n : ℚ) ^ 2 * ((n : ℚ) - 1) * ((n : ℚ) + 1) / 12 := by
  rw [sumX_eq, sumXX_eq]
  ring

theorem slope_denom_pos (n : Nat) (h : 2 ≤ n) : 0 < (n : ℚ) * sumXX n - sumX n * sumX n := by
  rw [slope_denom_eq]
  have hn : (2 : ℚ) ≤ (n : ℚ) := by exact_mod_cast h
  apply div_pos
  · apply mul_pos (mul_pos (pow_pos (by linarith) 2) (by linarith))
    linarith
  · norm_num

theorem double_sum_covariance (n : Nat) (y : ℕ → ℚ) :
    2 * ((n : ℚ) * (∑ i in Finset.range n, (i : ℚ) * y i)
      - (∑ i in Finset.range n, (i : ℚ)) * (∑ i in Finset.range n, y i)) =
    ∑ i in Finset.range n, ∑ j in Finset.range n, ((i : ℚ) - (j : ℚ)) * (y i - y j) := by
  simp only [sub_mul, mul_sub, Finset.sum_sub_distrib, Finset.sum_const, Finset.card_range,
    nsmul_eq_mul, ← Finset.mul_sum, ← Finset.sum_mul]
  ring

theorem cov_pos_of_strict_inc (n : Nat) (hn : 2 ≤ n) (y : ℕ → ℚ)
    (hy : ∀ i j, i < n → j < n → i < j → y i < y j) :
    0 < (n : ℚ) * (∑ i in Finset.range n, (i : ℚ) * y i)
      - (∑ i in Finset.range n, (i : ℚ)) * (∑ i in Finset.range n, y i) := by
  have key := double_sum_covariance n y
  have term_nonneg : ∀ i j, i < n → j < n → 0 ≤ ((i : ℚ) - (j : ℚ)) * (y i - y j) := by
    intro i j hi hj
    rcases lt_trichotomy i j with h | h | h
    · have h1 : (i : ℚ) - (j : ℚ) < 0 := by
        have hc : (i : ℚ) < (j : ℚ) := by exact_mod_cast h
        linarith
      have h2 : y i - y j < 0 := by have := hy i j hi hj h; linarith
      exact le_of_lt (mul_pos_of_neg_of_neg h1 h2)
    · subst h; simp
    · have h1 : (0 : ℚ) < (i : ℚ) - (j : ℚ) := by
        have hc : (j : ℚ) < (i : ℚ) := by exact_mod_cast h
        linarith
      have h2 : (0 : ℚ) < y i - y j := by have := hy j i hj hi h; linarith
      exact le_of_lt (mul_pos h1 h2)
  have hpos : 0 < ∑ i in Finset.range n, ∑ j in Finset.range n,
      ((i : ℚ) - (j : ℚ)) * (y i - y j) := by
    apply Finset.sum_pos'
    · intro i hi
      apply Finset.sum_nonneg
      intro j hj
      exact term_nonneg i j (Finset.mem_range.mp hi) (Finset.mem_range.mp hj)
    · refine ⟨0, Finset.mem_range.mpr (by omega), ?_⟩
      apply Finset.sum_pos'
      · intro j hj
        exact term_nonneg 0 j (by omega) (Finset.mem_range.mp hj)
      · refine ⟨1, Finset.mem_range.mpr (by omega), ?_⟩
        have h2 : y 0 - y 1 < 0 := by
          have := hy 0 1 (by omega) (by omega) (by omega)
          linarith
        have h1 : ((0 : ℕ) : ℚ) - ((1 : ℕ) : ℚ) < 0 := by norm_num
        exact mul_pos_of_neg_of_neg h1 h2
  linarith

theorem getD_lt_getD_of_pairwise_lt (v : List ℚ) (hp : v.Pairwise (fun a b => a < b)) :
    ∀ i j, i < v.length → j < v.length → i < j → v.getD i 0 < v.getD j 0 := by
  intro i j hi hj hij
  have h := List.pairwise_iff_get.mp hp ⟨i, hi⟩ ⟨j, hj⟩ (Fin.mk_lt_mk.mpr hij)
  simpa [List.getD_eq_getElem?_getD, List.getElem?_eq_getElem hi,
    List.getElem?_eq_getElem hj, List.get_eq_getElem] using h

theorem getD_gt_getD_of_pairwise_gt (v : List ℚ) (hp : v.Pairwise (fun a b => a > b)) :
    ∀ i j, i < v.length → j < v.length → i < j → v.getD j 0 < v.getD i 0 := by
  intro i j hi hj hij
  have h := List.pairwise_iff_get.mp hp ⟨i, hi⟩ ⟨j, hj⟩ (Fin.mk_lt_mk.mpr hij)
  simpa [List.getD_eq_getElem?_getD, List.getElem?_eq_getElem hi,
    List.getElem?_eq_getElem hj, List.get_eq_getElem] using h

theorem slope_num_pos_of_inc (v : List ℚ) (h2 : 2 ≤ v.length)
    (hp : v.Pairwise (fun a b => a < b)) :
    0 < (v.length : ℚ) * sumXY v - sumX v.length * sumY v := by
  have hy := getD_lt_getD_of_pairwise_lt v hp
  have h := cov_pos_of_strict_inc v.length h2 (fun i => v.getD i 0) hy
  simpa [sumX, sumXY, sumY] using h

theorem slope_num_neg_of_dec (v : List ℚ) (h2 : 2 ≤ v.length)
    (hp : v.Pairwise (fun a b => a > b)) :
    (v.length : ℚ) * sumXY v - sumX v.length * sumY v < 0 := by
  have hy := getD_gt_getD_of_pairwise_gt v hp
  have h := cov_pos_of_strict_inc v.length h2 (fun i => -(v.getD i 0))
    (fun i j hi hj hij => by
      show -(v.getD i 0) < -(v.getD j 0)
      have := hy i j hi hj hij
      linarith)
  simp only [mul_neg, Finset.sum_neg_distrib] at h
  have hXY : (∑ i in Finset.range v.length, (i : ℚ) * v.getD i 0) = sumXY v := rfl
  have hY : (∑ i in Finset.range v.length, v.getD i 0) = sumY v := rfl
  rw [hXY, hY] at h
  have hX : (∑ i in Finset.range v.length, (i : ℚ)) = sumX v.length := rfl
  rw [hX] at h
  linarith

theorem calculate_slope_short (v : List ℚ) (h : v.length < 2) : calculate_slope v = 0 := by
  simp only [calculate_slope]
  rw [if_pos h]

theorem calculate_slope_formula (v : List ℚ) (h2 : 2 ≤ v.length) :
    (v.length : ℚ) * sumXX v.length - sumX v.length * sumX v.length ≠ 0
    ∧ calculate_slope v = ((v.length : ℚ) * sumXY v - sumX v.length * sumY v)
      / ((v.length : ℚ) * sumXX v.length - sumX v.length * sumX v.length) := by
  have hd := slope_denom_pos v.length h2
  refine ⟨ne_of_gt hd, ?_⟩
  simp only [calculate_slope]
  rw [if_neg (by omega), if_neg (ne_of_gt hd)]

theorem calculate_slope_pos_of_inc (v : List ℚ) (h2 : 2 ≤ v.length)
    (hp : v.Pairwise (fun a b => a < b)) : 0 < calculate_slope v := by
  rw [(calculate_slope_formula v h2).2]
  exact div_pos (slope_num_pos_of_inc v h2 hp) (slope_denom_pos v.length h2)

theorem calculate_slope_neg_of_dec (v : List ℚ) (h2 : 2 ≤ v.length)
    (hp : v.Pairwise (fun a b => a > b)) : calculate_slope v < 0 := by
  rw [(calculate_slope_formula v h2).2]
  exact div_neg_of_neg_of_pos (slope_num_neg_of_dec v h2 hp) (slope_denom_pos v.length h2)

theorem calculate_slope_const (v : List ℚ) (c : ℚ) (hc : ∀ x ∈ v, x = c) :
    calculate_slope v = 0 := by
  by_cases hlen : v.length < 2
  · exact calculate_slope_short v hlen
  · have hgetD : ∀ i, i < v.length → v.getD i 0 = c := by
      intro i hi
      have hmem : v.get ⟨i, hi⟩ ∈ v := v.get_mem i hi
      have := hc _ hmem
      simpa [List.getD_eq_getElem?_getD, List.getElem?_eq_getElem hi,
        List.get_eq_getElem] using this
    have hXY : sumXY v = sumX v.length * c := by
      unfold sumXY sumX
      rw [Finset.sum_mul]
      apply Finset.sum_congr rfl
      intro i hi
      rw [hgetD i (Finset.mem_range.mp hi)]
    have hY : sumY v = (v.length : ℚ) * c := by
      unfold sumY
      calc (∑ i in Finset.range v.length, v.getD i 0)
          = ∑ _i in Finset.range v.length, c :=
            Finset.sum_congr rfl (fun i hi => hgetD i (Finset.mem_range.mp hi))
        _ = (v.length : ℚ) * c := by
            rw [Finset.sum_const, Finset.card_range, nsmul_eq_mul]
    rw [(calculate_slope_formula v (by omega)).2, hXY, hY]
    have hnum : (v.length : ℚ) * (sumX v.length * c) - sumX v.length * ((v.length : ℚ) * c) = 0 := by
      ring
    rw [hnum, zero_div]

/-- C7: `calculate_slope` is the ordinary least-squares slope of the values
against positions `0..n-1` (for `n ≥ 2` it equals the closed OLS ratio and
the index-variance denominator is nonzero), it is positive on strictly
increasing series of length ≥ 2, negative on strictly decreasing ones,
zero on constant series, and zero on empty or single-element series. -/
theorem c7_slope_properties :
    (∀ v : List ℚ, v.length < 2 → calculate_slope v = 0)
    ∧ (∀ v : List ℚ, 2 ≤ v.length →
        (v.length : ℚ) * sumXX v.length - sumX v.length * sumX v.length ≠ 0
        ∧ calculate_slope v = ((v.length : ℚ) * sumXY v - sumX v.length * sumY v)
          / ((v.length : ℚ) * sumXX v.length - sumX v.length * sumX v.length))
    ∧ (∀ v : List ℚ, 2 ≤ v.length → v.Pairwise (fun a b => a < b) → 0 < calculate_slope v)
    ∧ (∀ v : List ℚ, 2 ≤ v.length → v.Pairwise (fun a b => a > b) → calculate_slope v < 0)
    ∧ (∀ (v : List ℚ) (c : ℚ), (∀ x ∈ v, x = c) → calculate_slope v = 0) :=
  ⟨calculate_slope_short, calculate_slope_formula, calculate_slope_pos_of_inc,
   calculate_slope_neg_of_dec, calculate_slope_const⟩

/-- Witness for C7 at concrete series. -/
theorem c7_slope_properties_witness :
    calculate_slope [(5 : ℚ)] = 0
    ∧ 0 < calculate_slope [(1 : ℚ), 2, 4]
    ∧ calculate_slope [(100 : ℚ), 90, 80, 70] < 0
    ∧ calculate_slope [(3 : ℚ), 3, 3] = 0 :=
  ⟨c7_slope_properties.1 _ (by norm_num),
   c7_slope_properties.2.2.1 _ (by norm_num) (by with_unfolding_all decide),
   c7_slope_properties.2.2.2.1 _ (by norm_num) (by with_unfolding_all decide),
   c7_slope_properties.2.2.2.2 _ 3 (by with_unfolding_all decide)⟩

theorem maxStreak_ge_cnt (rest : List Int) (prev : Int) (cnt : Nat) :
    cnt ≤ maxStreak prev rest cnt := by
  induction rest generalizing prev cnt with
  | nil => simp [maxStreak]
  | cons u tl ih =>
    simp only [maxStreak]
    split
    · exact le_trans (Nat.le_succ cnt) (ih u (cnt + 1))
    · exact le_max_left _ _

theorem cdownGo_iff_maxStreak (rest : List Int) (prev : Int) (cnt target : Nat)
    (ht : 1 ≤ target) (hc : cnt < target) :
    cdownGo prev rest cnt target = true ↔ target ≤ maxStreak prev rest cnt := by
  induction rest generalizing prev cnt with
  | nil =>
    simp only [cdownGo, maxStreak, Bool.false_eq_true, false_iff]
    omega
  | cons u tl ih =>
    simp only [cdownGo, maxStreak]
    by_cases hu : u < prev
    · rw [if_pos hu, if_pos hu]
      by_cases hge : cnt + 1 ≥ target
      · rw [if_pos hge]
        have hms := maxStreak_ge_cnt tl u (cnt + 1)
        simp only [true_iff]
        omega
      · rw [if_neg hge]
        exact ih u (cnt + 1) (by omega)
    · rw [if_neg hu, if_neg hu, ih u 0 ht]
      constructor
      · intro hx
        exact le_trans hx (Nat.le_max_right _ _)
      · intro hx
        rcases le_or_lt target (maxStreak u tl 0) with h | h
        · exact h
        · exfalso
          have := Nat.max_lt.mpr ⟨hc, h⟩
          omega

theorem maxStreak_eq (rest : List Int) (prev : Int) (cnt : Nat) :
    maxStreak prev rest cnt = max (cnt + descLen prev rest) (maxRun rest) := by
  induction rest generalizing prev cnt with
  | nil => simp [maxStreak, descLen, maxRun]
  | cons u tl ih =>
    simp only [maxStreak, descLen, maxRun]
    by_cases hu : u < prev
    · rw [if_pos hu, if_pos hu, ih u (cnt + 1)]
      omega
    · rw [if_neg hu, if_neg hu, ih u 0]
      omega

theorem descLen_le_length (prev : Int) (l : List Int) : descLen prev l ≤ l.length := by
  induction l generalizing prev with
  | nil => simp [descLen]
  | cons u tl ih =>
    simp only [descLen, List.length_cons]
    split
    · exact Nat.succ_le_succ (ih u)
    · omega

theorem chain_of_descLen (l : List Int) (prev : Int) (k : Nat) (hk : k ≤ descLen prev l) :
    List.Chain' (fun a b => b < a) (prev :: l.take k) := by
  induction l generalizing prev k with
  | nil =>
    simp only [descLen, Nat.le_zero] at hk
    simp [hk]
  | cons u tl ih =>
    cases k with
    | zero => simp
    | succ k2 =>
      simp only [descLen] at hk
      by_cases hu : u < prev
      · rw [if_pos hu] at hk
        simp only [List.take_succ_cons]
        rw [List.chain'_cons]
        exact ⟨hu, ih u k2 (by omega)⟩
      · rw [if_neg hu] at hk
        omega

theorem descLen_of_chain (s : List Int) (a : Int) (post : List Int)
    (hc : List.Chain' (fun x y => y < x) (a :: s)) :
    s.length ≤ descLen a (s ++ post) := by
  induction s generalizing a with
  | nil => simp
  | cons b tl ih =>
    rw [List.chain'_cons] at hc
    simp only [List.cons_append, descLen, List.length_cons]
    rw [if_pos hc.1]
    exact Nat.succ_le_succ (ih b hc.2)

theorem maxRun_ge_of_run (pre seg post : List Int) (k : Nat) (hlen : seg.length = k + 1)
    (hchain : seg.Chain' (fun x y => y < x)) : k ≤ maxRun (pre ++ seg ++ post) := by
  induction pre with
  | nil =>
    cases seg with
    | nil => simp at hlen
    | cons a s =>
      simp only [List.nil_append, List.cons_append, maxRun, List.append_eq]
      have hd := descLen_of_chain s a post hchain
      have hsl : s.length = k := by simpa using hlen
      omega
  | cons x pre2 ih =>
    simp only [List.cons_append, maxRun, List.append_eq] at ih ⊢
    omega

theorem hasRun_of_maxRun (l : List Int) (k : Nat) (hk : 1 ≤ k) (h : k ≤ maxRun l) :
    hasDescentRun l (k + 1) := by
  induction l with
  | nil => simp only [maxRun, Nat.le_zero] at h; omega
  | cons u tl ih =>
    simp only [maxRun] at h
    by_cases hd : k ≤ descLen u tl
    · refine ⟨[], u :: tl.take k, tl.drop k, ?_, ?_, chain_of_descLen tl u k hd⟩
      · simp [List.take_append_drop]
      · have := descLen_le_length u tl
        simp only [List.length_cons, List.length_take]
        omega
    · have h2 : k ≤ maxRun tl := by omega
      obtain ⟨pre, seg, post, heq, hlen, hchain⟩ := ih h2
      exact ⟨u :: pre, seg, post, by rw [List.cons_append, List.cons_append, ← heq], hlen, hchain⟩

theorem hasRun_length_le (l : List Int) (m : Nat) (h : hasDescentRun l m) : m ≤ l.length := by
  obtain ⟨pre, seg, post, heq, hlen, _⟩ := h
  rw [heq]
  simp only [List.length_append]
  omega

theorem detect_iff_hasRun (weeks : List SalesRow) (m : Nat) (hm : 2 ≤ m) :
    detect_consecutive_weeks_down weeks m = true ↔
      hasDescentRun (weeks.map (fun w => w.Units)) m := by
  have hlenmap : (weeks.map (fun w => w.Units)).length = weeks.length := List.length_map _ _
  by_cases hlen : weeks.length < m
  · simp only [detect_consecutive_weeks_down, if_pos hlen, Bool.false_eq_true, false_iff]
    intro hx
    have := hasRun_length_le _ _ hx
    omega
  · simp only [detect_consecutive_weeks_down, if_neg hlen]
    cases hu : weeks.map (fun w => w.Units) with
    | nil =>
      exfalso
      rw [hu] at hlenmap
      simp at hlenmap
      omega
    | cons u rest =>
      rw [cdownGo_iff_maxStreak rest u 0 (m - 1) (by omega) (by omega), maxStreak_eq]
      have hmr : max (0 + descLen u rest) (maxRun rest) = maxRun (u :: rest) := by
        simp [maxRun]
      rw [hmr]
      constructor
      · intro hx
        have hres := hasRun_of_maxRun (u :: rest) (m - 1) (by omega) hx
        rw [Nat.sub_add_cancel (by omega : 1 ≤ m)] at hres
        exact hres
      · intro hx
        obtain ⟨pre, seg, post, heq, hslen, hchain⟩ := hx
        have := maxRun_ge_of_run pre seg post (m - 1)
          (by rw [hslen]; omega) hchain
        rw [← heq] at this
        exact this

/-- C8 (amended with the restriction minWeeks ≥ 2, which the counterexample
forces): for every window and every minWeeks m ≥ 2,
`detect_consecutive_weeks_down` returns true iff the units sequence contains
an unbroken strictly-decreasing run of m weeks, i.e. of at least m - 1
strictly decreasing consecutive-pair transitions. -/
theorem c8_consecutive_weeks_down (weeks : List SalesRow) (m : Nat) (hm : 2 ≤ m) :
    detect_consecutive_weeks_down weeks m = true ↔
      hasDescentRun (weeks.map (fun w => w.Units)) m :=
  detect_iff_hasRun weeks m hm

/-- C8 counterexample to the claim as stated (quantified over every
minWeeks m): at m = 1 the units sequence [5, 6] contains a run of
m - 1 = 0 strictly decreasing transitions (a single week), yet the
function returns false. -/
theorem c8_counterexample :
    detect_consecutive_weeks_down c8pair 1 = false
    ∧ hasDescentRun (c8pair.map (fun w => w.Units)) 1 :=
  ⟨by with_unfolding_all decide, ⟨[], [5], [6], rfl, rfl, List.chain'_singleton 5⟩⟩

/-- Witness for C8 on the spec's two examples at minWeeks = 3. -/
theorem c8_consecutive_weeks_down_witness :
    (detect_consecutive_weeks_down c8down 3 = true ↔
      hasDescentRun (c8down.map (fun w => w.Units)) 3)
    ∧ detect_consecutive_weeks_down c8down 3 = true
    ∧ detect_consecutive_weeks_down c8broken 3 = false :=
  ⟨c8_consecutive_weeks_down c8down 3 (by omega),
   by with_unfolding_all decide,
   by with_unfolding_all decide⟩

/-- C1 (amended: the engine matches the **calendar** year of the window's
first record minus one — `datetime.year` — not the ISO year; week numbers
are matched by ISO week number): for every group and nonempty window, the
PriorYearWindow is a permutation of the records of the group whose calendar
year is the window head's calendar year minus one and whose ISO week number
occurs in the window, sorted ascending by week date. -/
theorem c1_prior_year_window (rows cw : List SalesRow) (c0 : SalesRow) (rest : List SalesRow)
    (hcw : cw = c0 :: rest) :
    (get_same_weeks_previous_year rows cw).Perm
      (rows.filter (fun r => get_year r == get_year c0 - 1
        && decide (get_week_number r ∈ cw.map get_week_number)))
    ∧ (get_same_weeks_previous_year rows cw).Sorted dateLe := by
  subst hcw
  exact ⟨List.perm_insertionSort _ _, List.sorted_insertionSort _ _⟩

/-- C1 counterexample: for the window [c1decRow] (2024-12-30: calendar year
2024 but ISO year 2025, ISO week 1) and the candidate record c1janRow
(2024-01-01: calendar and ISO year 2024, ISO week 1), the spec's ISO-year
rule selects the record while the code selects nothing. -/
theorem c1_counterexample :
    get_same_weeks_previous_year [c1janRow] [c1decRow] = []
    ∧ specPriorYearWindow [c1janRow] [c1decRow] = [c1janRow]
    ∧ iso_year c1decRow = 2025 ∧ get_year c1decRow = 2024
    ∧ iso_year c1janRow = 2024 ∧ get_year c1janRow = 2024
    ∧ get_week_number c1decRow = 1 ∧ get_week_number c1janRow = 1 := by
  with_unfolding_all decide

/-- Witness for C1 at the concrete one-record group and window. -/
theorem c1_prior_year_window_witness :
    (get_same_weeks_previous_year [c1janRow] [c1decRow]).Perm
      (([c1janRow] : List SalesRow).filter (fun r => get_year r == get_year c1decRow - 1
        && decide (get_week_number r ∈ ([c1decRow] : List SalesRow).map get_week_number)))
    ∧ (get_same_weeks_previous_year [c1janRow] [c1decRow]).Sorted dateLe :=
  c1_prior_year_window [c1janRow] [c1decRow] c1decRow [] rfl

/-- C3 (amended: besides rules 1 (negative normalized units slope) and 3
(consecutive weeks down), rule 6 — the WoW drop, (70-80)/80 = -12.5% <
-12% — also fires): the four-week scenario [100, 90, 80, 70] with no
prior-year data yields exactly one alert with reasons from rules 1, 3
and 6, severity WARNING, and YoY dataAvailable = false. -/
theorem c3_scenario :
    (analyze_sales_trends defaultThresholds c3rows).map
      (fun l => l.map (fun a => (a.AlertReasons, a.Severity, a.YoYComparison.DataAvailable)))
      = Except.ok [([ReasonTag.rule1, ReasonTag.rule3, ReasonTag.rule6], "WARNING", false)] := by
  with_unfolding_all decide

/-- C3 counterexample to "exactly rules 1 and 3 fire": the single alert's
reason list on the scenario also contains rule 6. -/
theorem c3_counterexample :
    (analyze_sales_trends defaultThresholds c3rows).map
      (fun l => l.map (fun a => a.AlertReasons))
      = Except.ok [[ReasonTag.rule1, ReasonTag.rule3, ReasonTag.rule6]]
    ∧ ([ReasonTag.rule1, ReasonTag.rule3, ReasonTag.rule6] : List ReasonTag)
        ≠ [ReasonTag.rule1, ReasonTag.rule3] := by
  constructor
  · with_unfolding_all decide
  · decide

theorem analyze_ok_sorted (cfg : Thresholds) (rows : List SalesRow) (alerts : List Alert)
    (h : analyze_sales_trends cfg rows = Except.ok alerts) : alerts.Sorted rankLe := by
  unfold analyze_sales_trends at h
  cases hp : processGroups cfg (groupRows rows) with
  | error e => rw [hp] at h; cases h
  | ok l =>
    rw [hp] at h
    simp only [Except.map, Except.ok.injEq] at h
    rw [← h]
    exact List.sorted_insertionSort rankLe l

theorem analyze_ok_stable (cfg : Thresholds) (rows : List SalesRow) (pre c alerts : List Alert)
    (hp : processGroups cfg (groupRows rows) = Except.ok pre)
    (h : analyze_sales_trends cfg rows = Except.ok alerts)
    (hsub : c.Sublist pre) (hpair : c.Pairwise rankLe) : c.Sublist alerts := by
  unfold analyze_sales_trends at h
  rw [hp] at h
  simp only [Except.map, Except.ok.injEq] at h
  rw [← h]
  exact List.sublist_insertionSort hpair hsub

/-- C5 (amended: the comparator's severity ranks are CRITICAL = 0,
WARNING = 1, INFO = 2 — not 3 — and 3 only for strings outside the severity
vocabulary; only CRITICAL and WARNING can occur in emitted alerts): the
final alert list is totally ordered by severity rank then YoY units change
ascending, the sort is stable (any key-sorted sublist of the unsorted alert
list stays a sublist), and the concrete pair A (CRITICAL, -0.30),
B (WARNING, -0.50) sorts as A before B. -/
theorem c5_ranking :
    severityRank "CRITICAL" = 0 ∧ severityRank "WARNING" = 1 ∧ severityRank "INFO" = 2
    ∧ (∀ s : String, s ≠ "CRITICAL" → s ≠ "WARNING" → s ≠ "INFO" → severityRank s = 3)
    ∧ (∀ a b : Alert, rankLe a b ∨ rankLe b a)
    ∧ (∀ a b c : Alert, rankLe a b → rankLe b c → rankLe a c)
    ∧ (∀ (cfg : Thresholds) (rows : List SalesRow) (alerts : List Alert),
        analyze_sales_trends cfg rows = Except.ok alerts → alerts.Sorted rankLe)
    ∧ (∀ (cfg : Thresholds) (rows : List SalesRow) (pre c alerts : List Alert),
        processGroups cfg (groupRows rows) = Except.ok pre →
        analyze_sales_trends cfg rows = Except.ok alerts →
        c.Sublist pre → c.Pairwise rankLe → c.Sublist alerts)
    ∧ List.insertionSort rankLe [c5alertB, c5alertA] = [c5alertA, c5alertB] := by
  refine ⟨rfl, rfl, rfl, ?_, ?_, ?_, analyze_ok_sorted, analyze_ok_stable, ?_⟩
  · intro s h1 h2 h3
    simp [severityRank, h1, h2, h3]
  · exact fun a b => IsTotal.total a b
  · exact fun a b c hab hbc => IsTrans.trans a b c hab hbc
  · with_unfolding_all decide

/-- Witness for C5's quantified clauses at concrete inputs. -/
theorem c5_ranking_witness :
    severityRank "SEVERE" = 3
    ∧ (rankLe c5alertA c5alertB ∨ rankLe c5alertB c5alertA)
    ∧ rankLe c5alertA c5alertB
    ∧ c3outAlerts.Sorted rankLe
    ∧ c3preAlerts.Sublist c3outAlerts :=
  ⟨c5_ranking.2.2.2.1 "SEVERE" (by decide) (by decide) (by decide),
   c5_ranking.2.2.2.2.1 c5alertA c5alertB,
   c5_ranking.2.2.2.2.2.1 c5alertA c5alertA c5alertB (by with_unfolding_all decide)
     (by with_unfolding_all decide),
   c5_ranking.2.2.2.2.2.2.1 defaultThresholds c3rows c3outAlerts (by with_unfolding_all decide),
   c5_ranking.2.2.2.2.2.2.2.1 defaultThresholds c3rows c3preAlerts c3preAlerts c3outAlerts
     (by with_unfolding_all decide) (by with_unfolding_all decide)
     (List.Sublist.refl _) (by with_unfolding_all decide)⟩

/-- C5 counterexample to "any other severity value = 3": the code's rank
dictionary explicitly maps the remaining severity INFO to 2, not 3. -/
theorem c5_counterexample : severityRank "INFO" = 2 ∧ severityRank "INFO" ≠ 3 := by
  constructor
  · rfl
  · decide

theorem ite_none_some {p : Prop} [Decidable p] {x a : Alert}
    (h : (if p then none else some x) = some a) : ¬p ∧ x = a := by
  split at h
  · cases h
  · exact ⟨by assumption, by injection h⟩

theorem exists_two_rev (l : List SalesRow) (h : 2 ≤ l.length) :
    ∃ a b t, l.reverse = a :: b :: t := by
  cases hr : l.reverse with
  | nil =>
    exfalso
    have := l.length_reverse
    rw [hr] at this
    simp at this
    omega
  | cons a tl =>
    cases tl with
    | nil =>
      exfalso
      have := l.length_reverse
      rw [hr] at this
      simp at this
      omega
    | cons b t => exact ⟨a, b, t, rfl⟩

theorem analyzeGroup_ok_some (cfg : Thresholds) (key : List Char) (g : List SalesRow) (a : Alert)
    (h : analyzeGroup cfg key g = Except.ok (some a)) :
    ∃ asin store lw pw tlrev,
      splitBar key = [asin, store]
      ∧ (get_last_n_weeks (sortByDate g) cfg.windowWeeks).reverse = lw :: pw :: tlrev
      ∧ ¬ (get_last_n_weeks (sortByDate g) cfg.windowWeeks).length < cfg.windowWeeks
      ∧ buildAlert cfg asin store (get_last_n_weeks (sortByDate g) cfg.windowWeeks)
          (get_same_weeks_previous_year (sortByDate g)
            (get_last_n_weeks (sortByDate g) cfg.windowWeeks)) lw pw = some a := by
  simp only [analyzeGroup] at h
  split at h
  · next x1 asin store hsp =>
    split at h
    · cases h
    · next hlen =>
      split at h
      · next x2 lw pw tlrev heq =>
        simp only [Except.ok.injEq] at h
        exact ⟨asin, store, lw, pw, tlrev, hsp, heq, hlen, h⟩
      · cases h
  · cases h

theorem buildAlert_fields (cfg : Thresholds) (asin store : List Char)
    (lastN pyw : List SalesRow) (lw pw : SalesRow) (a : Alert)
    (h : buildAlert cfg asin store lastN pyw lw pw = some a) :
    ∃ c1 c2 c3 c4 c5 c6 c7 : Bool,
      a.Severity = (runRules c1 c2 c3 c4 c5 c6 c7).sev
      ∧ a.AlertReasons = (runRules c1 c2 c3 c4 c5 c6 c7).reasons
      ∧ (runRules c1 c2 c3 c4 c5 c6 c7).reasons ≠ []
      ∧ a.Comparisons.YoYSameWeekUnitsChange =
          (match (if pyw.isEmpty then none else find_same_week_previous_year pyw lw) with
            | some m =>
              if 0 < m.Units then
                some (((lw.Units : ℚ) - (m.Units : ℚ)) / (m.Units : ℚ))
              else none
            | none => none).map (fun q => pyRound q 3)
      ∧ a.Comparisons.YoYSameWeekDataAvailable =
          (if pyw.isEmpty then none else find_same_week_previous_year pyw lw).isSome := by
  simp only [buildAlert] at h
  obtain ⟨hne, hx⟩ := ite_none_some h
  subst hx
  exact ⟨_, _, _, _, _, _, _, rfl, rfl, by simpa using hne, rfl, rfl⟩

theorem find_swpy_nil_guard (pyw : List SalesRow) (lw : SalesRow) :
    (if pyw.isEmpty then none else find_same_week_previous_year pyw lw)
      = find_same_week_previous_year pyw lw := by
  cases pyw
  · rfl
  · rfl

/-- C2 (amended: a numeric same-week change requires both an ISO-week match
in the prior-year window and strictly positive units on the match, but
`YoYSameWeekDataAvailable` tracks only the existence of the match — a match
with zero units leaves the change null while the flag stays true): for
every group whose analysis emits an alert with last window week `lw`, the
same-week change is non-null iff a matching record with positive units
exists, and the availability flag is false iff no matching record exists at
all. -/
theorem c2_same_week_comparison (cfg : Thresholds) (key : List Char) (g : List SalesRow)
    (a : Alert) (lw pw : SalesRow) (tlrev : List SalesRow)
    (h : analyzeGroup cfg key g = Except.ok (some a))
    (hrev : (get_last_n_weeks (sortByDate g) cfg.windowWeeks).reverse = lw :: pw :: tlrev) :
    ((a.Comparisons.YoYSameWeekUnitsChange ≠ none) ↔
      (∃ m, find_same_week_previous_year
          (get_same_weeks_previous_year (sortByDate g)
            (get_last_n_weeks (sortByDate g) cfg.windowWeeks)) lw = some m ∧ 0 < m.Units))
    ∧ (a.Comparisons.YoYSameWeekDataAvailable = false ↔
      find_same_week_previous_year
        (get_same_weeks_previous_year (sortByDate g)
          (get_last_n_weeks (sortByDate g) cfg.windowWeeks)) lw = none) := by
  obtain ⟨asin, store, lw2, pw2, tl2, hsp, hrev2, hlen, hb⟩ := analyzeGroup_ok_some cfg key g a h
  rw [hrev] at hrev2
  obtain ⟨rfl, rfl, rfl⟩ : lw = lw2 ∧ pw = pw2 ∧ tlrev = tl2 := by
    simpa [List.cons.injEq] using hrev2
  obtain ⟨c1, c2, c3, c4, c5, c6, c7, hsev, hreas, hne, hcmp, havail⟩ :=
    buildAlert_fields _ _ _ _ _ _ _ _ hb
  rw [hcmp, havail, find_swpy_nil_guard]
  constructor
  · cases hfc : find_same_week_previous_year
        (get_same_weeks_previous_year (sortByDate g)
          (get_last_n_weeks (sortByDate g) cfg.windowWeeks)) lw with
    | none => simp
    | some m =>
      by_cases hm : 0 < m.Units
      · simp [hm]
      · simp [hm]
  · cases hfc : find_same_week_previous_year
        (get_same_weeks_previous_year (sortByDate g)
          (get_last_n_weeks (sortByDate g) cfg.windowWeeks)) lw with
    | none => simp
    | some m => simp

/-- C2 counterexample to "yoySameWeekDataAvailable = false exactly when the
change is null": on the concrete scenario whose matching prior-year record
has zero units, the emitted alert has a null change together with
dataAvailable = true. -/
theorem c2_counterexample :
    (analyze_sales_trends defaultThresholds c2rows).map (fun l =>
      l.map (fun a =>
        (a.Comparisons.YoYSameWeekDataAvailable, a.Comparisons.YoYSameWeekUnitsChange)))
      = Except.ok [(true, none)] := by
  with_unfolding_all decide

/-- Witness for C2 at the concrete zero-units-match scenario. -/
theorem c2_same_week_comparison_witness :
    ((c2alert.Comparisons.YoYSameWeekUnitsChange ≠ none) ↔
      (∃ m, find_same_week_previous_year
          (get_same_weeks_previous_year (sortByDate c2rows)
            (get_last_n_weeks (sortByDate c2rows) defaultThresholds.windowWeeks)) c2lastRow
          = some m ∧ 0 < m.Units))
    ∧ (c2alert.Comparisons.YoYSameWeekDataAvailable = false ↔
      find_same_week_previous_year
        (get_same_weeks_previous_year (sortByDate c2rows)
          (get_last_n_weeks (sortByDate c2rows) defaultThresholds.windowWeeks)) c2lastRow
        = none) :=
  c2_same_week_comparison defaultThresholds c2key c2rows c2alert c2lastRow c2prevRow
    [mkRow "A1".toList "IT".toList 90 0 0 ⟨2024, 9, 9⟩,
     mkRow "A1".toList "IT".toList 100 0 0 ⟨2024, 9, 2⟩]
    (by with_unfolding_all decide) (by with_unfolding_all decide)

theorem runRules_reasons_sev : ∀ c1 c2 c3 c4 c5 c6 c7 : Bool,
    (runRules c1 c2 c3 c4 c5 c6 c7).reasons ≠ [] →
    ((runRules c1 c2 c3 c4 c5 c6 c7).sev = "CRITICAL" ∨
      (runRules c1 c2 c3 c4 c5 c6 c7).sev = "WARNING") := by decide

theorem analyzeGroup_emitted (cfg : Thresholds) (key : List Char) (g : List SalesRow) (a : Alert)
    (h : analyzeGroup cfg key g = Except.ok (some a)) :
    a.AlertReasons ≠ [] ∧ (a.Severity = "CRITICAL" ∨ a.Severity = "WARNING") := by
  obtain ⟨asin, store, lw, pw, tl, hsp, hrev, hlen, hb⟩ := analyzeGroup_ok_some cfg key g a h
  obtain ⟨c1, c2, c3, c4, c5, c6, c7, hsev, hreas, hne, _, _⟩ :=
    buildAlert_fields _ _ _ _ _ _ _ _ hb
  refine ⟨?_, ?_⟩
  · rw [hreas]; exact hne
  · rw [hsev]; exact runRules_reasons_sev c1 c2 c3 c4 c5 c6 c7 hne

theorem mem_processGroups (cfg : Thresholds) (gs : List (List Char × List SalesRow))
    (alerts : List Alert) (h : processGroups cfg gs = Except.ok alerts) :
    ∀ a ∈ alerts, ∃ kg ∈ gs, analyzeGroup cfg kg.1 kg.2 = Except.ok (some a) := by
  induction gs generalizing alerts with
  | nil =>
    simp only [processGroups, Except.ok.injEq] at h
    subst h
    simp
  | cons kg tl ih =>
    obtain ⟨k, g⟩ := kg
    simp only [processGroups] at h
    split at h
    · cases h
    · split at h
      · cases h
      · split at h
        · rename_i x1 x2 rest hr a alert heq
          simp only [Except.ok.injEq] at h
          subst h
          intro x hx
          rcases List.mem_cons.mp hx with rfl | hx2
          · exact ⟨(k, g), List.mem_cons_self _ _, heq⟩
          · obtain ⟨kg2, hkg2, hag⟩ := ih rest hr x hx2
            exact ⟨kg2, List.mem_cons_of_mem _ hkg2, hag⟩
        · rename_i x1 x2 rest hr a heq
          simp only [Except.ok.injEq] at h
          subst h
          intro x hx
          obtain ⟨kg2, hkg2, hag⟩ := ih rest hr x hx
          exact ⟨kg2, List.mem_cons_of_mem _ hkg2, hag⟩

theorem analyze_ok_severity (cfg : Thresholds) (rows : List SalesRow) (alerts : List Alert)
    (h : analyze_sales_trends cfg rows = Except.ok alerts) :
    ∀ a ∈ alerts, a.Severity = "CRITICAL" ∨ a.Severity = "WARNING" := by
  intro a ha
  unfold analyze_sales_trends at h
  cases hp : processGroups cfg (groupRows rows) with
  | error e => rw [hp] at h; cases h
  | ok l =>
    rw [hp] at h
    simp only [Except.map, Except.ok.injEq] at h
    subst h
    have hmem : a ∈ l := (List.mem_insertionSort rankLe).mp ha
    obtain ⟨kg, hkg, hag⟩ := mem_processGroups cfg _ l hp a hmem
    exact (analyzeGroup_emitted cfg kg.1 kg.2 a hag).2

theorem warnStep_no_downgrade (f : Bool) (tag : ReasonTag) (s : RuleState)
    (hs : s.sev = "WARNING" ∨ s.sev = "CRITICAL") :
    (warnStep f tag s).sev = s.sev
    ∧ (f = true → (warnStep f tag s).reasons = s.reasons ++ [tag]) := by
  rcases hs with h | h <;> cases f <;> simp [warnStep, h]

/-- C4: along the ordered rule chain the severity level (INFO < WARNING <
CRITICAL) is monotonically non-decreasing; once any state of the chain is
CRITICAL every later state is still CRITICAL; a WARNING-tier rule applied
to an already-raised severity leaves the severity unchanged while still
appending its reason when it fires; with zero firing rules the final state
is exactly the initial (no reasons, INFO); every emitted alert has at least
one reason and final severity CRITICAL or WARNING — never INFO — both at
group level and in the final output of the analysis. -/
theorem c4_escalation :
    (∀ c1 c2 c3 c4 c5 c6 c7 : Bool, ∀ k, k < 7 →
      sevLevel (((runChain c1 c2 c3 c4 c5 c6 c7).getD k initRuleState).sev)
        ≤ sevLevel (((runChain c1 c2 c3 c4 c5 c6 c7).getD (k + 1) initRuleState).sev))
    ∧ (∀ c1 c2 c3 c4 c5 c6 c7 : Bool, ∀ k, k < 8 → ∀ l, l < 8 → k ≤ l →
        ((runChain c1 c2 c3 c4 c5 c6 c7).getD k initRuleState).sev = "CRITICAL" →
        ((runChain c1 c2 c3 c4 c5 c6 c7).getD l initRuleState).sev = "CRITICAL")
    ∧ (∀ (f : Bool) (tag : ReasonTag) (s : RuleState),
        s.sev = "WARNING" ∨ s.sev = "CRITICAL" →
        (warnStep f tag s).sev = s.sev
        ∧ (f = true → (warnStep f tag s).reasons = s.reasons ++ [tag]))
    ∧ runRules false false false false false false false = initRuleState
    ∧ (∀ (cfg : Thresholds) (key : List Char) (g : List SalesRow) (a : Alert),
        analyzeGroup cfg key g = Except.ok (some a) →
        a.AlertReasons ≠ [] ∧ (a.Severity = "CRITICAL" ∨ a.Severity = "WARNING"))
    ∧ (∀ (cfg : Thresholds) (rows : List SalesRow) (alerts : List Alert),
        analyze_sales_trends cfg rows = Except.ok alerts →
        ∀ a ∈ alerts, a.Severity = "CRITICAL" ∨ a.Severity = "WARNING") := by
  refine ⟨by decide, by decide, warnStep_no_downgrade, by decide,
    analyzeGroup_emitted, analyze_ok_severity⟩

/-- Witness for C4 at the C3 scenario group and at a concrete rule state. -/
theorem c4_escalation_witness :
    ((warnStep true ReasonTag.rule4 ⟨[ReasonTag.rule2], "CRITICAL"⟩).sev = "CRITICAL"
      ∧ (true = true → (warnStep true ReasonTag.rule4 ⟨[ReasonTag.rule2], "CRITICAL"⟩).reasons
          = [ReasonTag.rule2] ++ [ReasonTag.rule4]))
    ∧ (c3alert.AlertReasons ≠ [] ∧ (c3alert.Severity = "CRITICAL" ∨ c3alert.Severity = "WARNING"))
    ∧ (c3alert.Severity = "CRITICAL" ∨ c3alert.Severity = "WARNING") :=
  ⟨c4_escalation.2.2.1 true ReasonTag.rule4 ⟨[ReasonTag.rule2], "CRITICAL"⟩ (Or.inr rfl),
   c4_escalation.2.2.2.2.1 defaultThresholds c2key c3rows c3alert (by with_unfolding_all decide),
   c4_escalation.2.2.2.2.2 defaultThresholds c3rows c3outAlerts (by with_unfolding_all decide)
     c3alert (by with_unfolding_all decide)⟩

theorem analyzeGroup_no_indexErr (cfg : Thresholds) (key : List Char) (g : List SalesRow)
    (h2 : 2 ≤ cfg.windowWeeks) : analyzeGroup cfg key g ≠ Except.error AErr.indexErr := by
  intro h
  simp only [analyzeGroup] at h
  split at h
  · split at h
    · cases h
    · rename_i hlen
      split at h
      · cases h
      · rename_i hno
        have hlen2 : 2 ≤ (get_last_n_weeks (sortByDate g) cfg.windowWeeks).length := by omega
        obtain ⟨a, b, t, hab⟩ := exists_two_rev _ hlen2
        exact hno a b t hab
  · simp at h

theorem processGroups_no_indexErr (cfg : Thresholds) (gs : List (List Char × List SalesRow))
    (hall : ∀ kg ∈ gs, analyzeGroup cfg kg.1 kg.2 ≠ Except.error AErr.indexErr) :
    processGroups cfg gs ≠ Except.error AErr.indexErr := by
  induction gs with
  | nil => simp [processGroups]
  | cons kg tl ih =>
    obtain ⟨k, g⟩ := kg
    intro h
    simp only [processGroups] at h
    split at h
    · rename_i e heq
      simp only [Except.error.injEq] at h
      subst h
      exact hall (k, g) (List.mem_cons_self _ _) heq
    · split at h
      · rename_i x1 a hga e heq
        simp only [Except.error.injEq] at h
        subst h
        exact ih (fun kg2 hkg2 => hall kg2 (List.mem_cons_of_mem _ hkg2)) heq
      · split at h <;> cases h

/-- C9: after the insufficient-window guard, the unconditional accesses to
the last and second-to-last window records are in bounds for every input
batch whenever windowWeeks ≥ 2 (the analysis never raises the modelled
IndexError), and the precondition is necessary: with windowWeeks = 1 a
one-record group makes `last_n_weeks[-2]` out of bounds, and the analysis
raises. -/
theorem c9_window_access :
    (∀ (cfg : Thresholds) (rows : List SalesRow), 2 ≤ cfg.windowWeeks →
      analyze_sales_trends cfg rows ≠ Except.error AErr.indexErr)
    ∧ analyze_sales_trends window1Thresholds [c9row] = Except.error AErr.indexErr := by
  constructor
  · intro cfg rows h2 h
    unfold analyze_sales_trends at h
    cases hp : processGroups cfg (groupRows rows) with
    | error e =>
      rw [hp] at h
      simp only [Except.map, Except.error.injEq] at h
      subst h
      exact processGroups_no_indexErr cfg (groupRows rows)
        (fun kg _ => analyzeGroup_no_indexErr cfg kg.1 kg.2 h2) hp
    | ok l =>
      rw [hp] at h
      simp [Except.map] at h
  · with_unfolding_all decide

/-- Witness for C9's universal clause at a concrete batch. -/
theorem c9_window_access_witness :
    analyze_sales_trends defaultThresholds c3rows ≠ Except.error AErr.indexErr :=
  c9_window_access.1 defaultThresholds c3rows (by decide)

theorem splitBar_ne_nil (l : List Char) : splitBar l ≠ [] := by
  induction l with
  | nil => simp [splitBar]
  | cons c tl ih =>
    simp only [splitBar]
    split
    · simp
    · split
      · simp
      · simp

theorem splitBar_no_bar (l : List Char) (h : '|' ∉ l) : splitBar l = [l] := by
  induction l with
  | nil => rfl
  | cons c tl ih =>
    have hc : ¬ c = '|' := fun hcc => h (hcc ▸ List.mem_cons_self c tl)
    have htl : '|' ∉ tl := fun hm => h (List.mem_cons_of_mem c hm)
    simp only [splitBar, if_neg hc, ih htl]

theorem splitBar_key (a s : List Char) (ha : '|' ∉ a) (hs : '|' ∉ s) :
    splitBar (a ++ '|' :: s) = [a, s] := by
  induction a with
  | nil =>
    simp [List.nil_append, splitBar, splitBar_no_bar s hs]
  | cons c tl ih =>
    have hc : ¬ c = '|' := fun hcc => ha (hcc ▸ List.mem_cons_self c tl)
    have htl : '|' ∉ tl := fun hm => ha (List.mem_cons_of_mem c hm)
    simp only [List.cons_append, splitBar, if_neg hc, List.append_eq, ih htl]

theorem splitBar_length (l : List Char) : (splitBar l).length = l.count '|' + 1 := by
  induction l with
  | nil => rfl
  | cons c tl ih =>
    simp only [splitBar]
    by_cases hc : c = '|'
    · subst hc
      rw [if_pos rfl]
      simp [List.count_cons, ih]
    · rw [if_neg hc]
      cases hr : splitBar tl with
      | nil => exact absurd hr (splitBar_ne_nil tl)
      | cons h0 t0 =>
        rw [hr] at ih
        simp only [List.length_cons] at ih ⊢
        rw [List.count_cons]
        simp only [beq_iff_eq, hc, if_false]
        omega

theorem makeKey_eq_iff (r1 r2 : SalesRow) (h1a : '|' ∉ r1.ASIN) (h1s : '|' ∉ r1.StoreCode)
    (h2a : '|' ∉ r2.ASIN) (h2s : '|' ∉ r2.StoreCode) :
    makeKey r1 = makeKey r2 ↔ (r1.ASIN = r2.ASIN ∧ r1.StoreCode = r2.StoreCode) := by
  constructor
  · intro h
    have e1 := splitBar_key r1.ASIN r1.StoreCode h1a h1s
    have e2 := splitBar_key r2.ASIN r2.StoreCode h2a h2s
    unfold makeKey at h
    rw [h, e2] at e1
    simp only [List.cons.injEq, and_true] at e1
    exact ⟨e1.1.symm, e1.2.symm⟩
  · intro ⟨ha, hs⟩
    unfold makeKey
    rw [ha, hs]

theorem lookupGroup_addToGroups (gs : List (List Char × List SalesRow)) (k k2 : List Char)
    (r : SalesRow) :
    lookupGroup (addToGroups gs k2 r) k =
      if k2 = k then lookupGroup gs k ++ [r] else lookupGroup gs k := by
  induction gs with
  | nil =>
    simp only [addToGroups, lookupGroup]
    by_cases h : k2 = k
    · rw [if_pos h, if_pos h]
      simp
    · rw [if_neg h, if_neg h]
  | cons hd tl ih =>
    obtain ⟨k3, l⟩ := hd
    simp only [addToGroups]
    by_cases h3 : k3 = k2
    · subst h3
      rw [if_pos rfl]
      simp only [lookupGroup]
      by_cases hk : k3 = k
      · rw [if_pos hk, if_pos hk, if_pos hk]
      · rw [if_neg hk, if_neg hk, if_neg hk]
    · rw [if_neg h3]
      simp only [lookupGroup]
      by_cases hk : k3 = k
      · have hk2 : ¬ k2 = k := fun he => h3 (by rw [hk, he])
        rw [if_pos hk, if_pos hk, if_neg hk2]
      · rw [if_neg hk, if_neg hk, ih]

theorem lookupGroup_foldl (rows : List SalesRow) (gs : List (List Char × List SalesRow))
    (k : List Char) :
    lookupGroup (rows.foldl (fun acc r => addToGroups acc (makeKey r) r) gs) k
      = lookupGroup gs k ++ rows.filter (fun r => decide (makeKey r = k)) := by
  induction rows generalizing gs with
  | nil => simp
  | cons r tl ih =>
    simp only [List.foldl_cons, List.filter_cons]
    rw [ih, lookupGroup_addToGroups]
    by_cases h : makeKey r = k
    · rw [if_pos h]
      simp [h]
    · rw [if_neg h]
      simp [h]

theorem count_pos_of_mem {c : Char} {l : List Char} (h : c ∈ l) : 0 < l.count c := by
  induction l with
  | nil => cases h
  | cons x tl ih =>
    rw [List.count_cons]
    rcases List.mem_cons.mp h with rfl | h2
    · simp
    · have := ih h2
      omega

theorem splitBar_makeKey_bad (r : SalesRow) (h : '|' ∈ r.ASIN ∨ '|' ∈ r.StoreCode) :
    (splitBar (makeKey r)).length ≠ 2 := by
  rw [splitBar_length]
  unfold makeKey
  rw [List.count_append, List.count_cons]
  have hpos : 0 < r.ASIN.count '|' ∨ 0 < r.StoreCode.count '|' := by
    rcases h with h | h
    · exact Or.inl (count_pos_of_mem h)
    · exact Or.inr (count_pos_of_mem h)
  simp only [beq_self_eq_true, if_true]
  omega

theorem analyzeGroup_badkey (cfg : Thresholds) (key : List Char) (g : List SalesRow)
    (hk : (splitBar key).length ≠ 2) :
    analyzeGroup cfg key g = Except.error AErr.unpackErr := by
  simp only [analyzeGroup]
  split
  · rename_i x asin store hsp
    have hlen2 : (splitBar key).length = 2 := by rw [hsp]; rfl
    exact (hk hlen2).elim
  · rfl

theorem processGroups_err_of_bad (cfg : Thresholds) (gs : List (List Char × List SalesRow))
    (hbad : ∃ kg ∈ gs, (splitBar kg.1).length ≠ 2) :
    ∃ e, processGroups cfg gs = Except.error e := by
  induction gs with
  | nil =>
    obtain ⟨kg, hkg, _⟩ := hbad
    simp at hkg
  | cons kg tl ih =>
    obtain ⟨k, g⟩ := kg
    obtain ⟨kg2, hkg2, hk2⟩ := hbad
    rcases List.mem_cons.mp hkg2 with rfl | hmem
    · refine ⟨AErr.unpackErr, ?_⟩
      simp only [processGroups, analyzeGroup_badkey cfg k g (by simpa using hk2)]
    · obtain ⟨e, he⟩ := ih ⟨kg2, hmem, hk2⟩
      cases hg : analyzeGroup cfg k g with
      | error e2 =>
        exact ⟨e2, by simp only [processGroups, hg]⟩
      | ok a =>
        refine ⟨e, ?_⟩
        simp only [processGroups, hg, he]

theorem key_mem_of_addToGroups (gs : List (List Char × List SalesRow)) (k k2 : List Char)
    (r : SalesRow) (h : k ∈ gs.map Prod.fst) :
    k ∈ (addToGroups gs k2 r).map Prod.fst := by
  induction gs with
  | nil => simp at h
  | cons hd tl ih =>
    obtain ⟨k3, l⟩ := hd
    simp only [addToGroups]
    split
    · simpa using h
    · simp only [List.map_cons] at h ⊢
      rcases List.mem_cons.mp h with h1 | h2
      · exact List.mem_cons.mpr (Or.inl h1)
      · exact List.mem_cons.mpr (Or.inr (ih h2))

theorem key_self_addToGroups (gs : List (List Char × List SalesRow)) (k2 : List Char)
    (r : SalesRow) : k2 ∈ (addToGroups gs k2 r).map Prod.fst := by
  induction gs with
  | nil => simp [addToGroups]
  | cons hd tl ih =>
    obtain ⟨k3, l⟩ := hd
    simp only [addToGroups]
    split
    · rename_i h3
      simp [h3]
    · simp only [List.map_cons, List.mem_cons]
      exact Or.inr ih

theorem key_mem_foldl (rows : List SalesRow) (gs : List (List Char × List SalesRow))
    (k : List Char) (h : k ∈ gs.map Prod.fst) :
    k ∈ ((rows.foldl (fun acc r => addToGroups acc (makeKey r) r) gs).map Prod.fst) := by
  induction rows generalizing gs with
  | nil => simpa using h
  | cons r tl ih =>
    simp only [List.foldl_cons]
    exact ih _ (key_mem_of_addToGroups gs k (makeKey r) r h)

theorem key_mem_foldl_of_mem (rows : List SalesRow) (gs : List (List Char × List SalesRow))
    (r : SalesRow) (hr : r ∈ rows) :
    makeKey r ∈ ((rows.foldl (fun acc x => addToGroups acc (makeKey x) x) gs).map Prod.fst) := by
  induction rows generalizing gs with
  | nil => cases hr
  | cons r0 tl ih =>
    simp only [List.foldl_cons]
    rcases List.mem_cons.mp hr with rfl | h2
    · exact key_mem_foldl tl _ (makeKey r) (key_self_addToGroups gs (makeKey r) r)
    · exact ih _ h2

theorem key_mem_groupRows (rows : List SalesRow) (r : SalesRow) (hr : r ∈ rows) :
    makeKey r ∈ (groupRows rows).map Prod.fst :=
  key_mem_foldl_of_mem rows [] r hr

/-- C10: grouping is implemented by the concatenated key ASIN + "|" +
StoreCode split back on "|": the group stored under a key consists exactly
of the input rows with that key, in encounter order; when no ASIN or
StoreCode contains "|", two records get the same key iff they agree on both
fields and the split recovers exactly the original pair; and when some
record's ASIN or StoreCode does contain "|", the two-way unpacking of the
split key fails and the analysis raises instead of returning a result. -/
theorem c10_grouping :
    (∀ (rows : List SalesRow) (k : List Char),
      lookupGroup (groupRows rows) k = rows.filter (fun r => decide (makeKey r = k)))
    ∧ (∀ r1 r2 : SalesRow, '|' ∉ r1.ASIN → '|' ∉ r1.StoreCode → '|' ∉ r2.ASIN →
        '|' ∉ r2.StoreCode →
        (makeKey r1 = makeKey r2 ↔ (r1.ASIN = r2.ASIN ∧ r1.StoreCode = r2.StoreCode)))
    ∧ (∀ r : SalesRow, '|' ∉ r.ASIN → '|' ∉ r.StoreCode →
        splitBar (makeKey r) = [r.ASIN, r.StoreCode])
    ∧ (∀ (cfg : Thresholds) (rows : List SalesRow),
        (∃ r ∈ rows, '|' ∈ r.ASIN ∨ '|' ∈ r.StoreCode) →
        ∃ e, analyze_sales_trends cfg rows = Except.error e) := by
  refine ⟨?_, makeKey_eq_iff, ?_, ?_⟩
  · intro rows k
    unfold groupRows
    rw [lookupGroup_foldl]
    simp [lookupGroup]
  · intro r ha hs
    unfold makeKey
    exact splitBar_key r.ASIN r.StoreCode ha hs
  · intro cfg rows ⟨r, hr, hbar⟩
    have hkmem := key_mem_groupRows rows r hr
    obtain ⟨kg, hkg, hfst⟩ := List.mem_map.mp hkmem
    have hbadk : (splitBar kg.1).length ≠ 2 := by
      rw [hfst]
      exact splitBar_makeKey_bad r hbar
    obtain ⟨e, he⟩ := processGroups_err_of_bad cfg (groupRows rows) ⟨kg, hkg, hbadk⟩
    refine ⟨e, ?_⟩
    unfold analyze_sales_trends
    rw [he]
    rfl

/-- Witness for C10 at concrete records. -/
theorem c10_grouping_witness :
    lookupGroup (groupRows [c10badRow]) (makeKey c10badRow)
      = ([c10badRow]).filter (fun r => decide (makeKey r = makeKey c10badRow))
    ∧ (makeKey c1janRow = makeKey c1decRow ↔
        (c1janRow.ASIN = c1decRow.ASIN ∧ c1janRow.StoreCode = c1decRow.StoreCode))
    ∧ splitBar (makeKey c1janRow) = [c1janRow.ASIN, c1janRow.StoreCode]
    ∧ (∃ e, analyze_sales_trends defaultThresholds [c10badRow] = Except.error e) :=
  ⟨c10_grouping.1 [c10badRow] (makeKey c10badRow),
   c10_grouping.2.1 c1janRow c1decRow (by decide) (by decide) (by decide) (by decide),
   c10_grouping.2.2.1 c1janRow (by decide) (by decide),
   c10_grouping.2.2.2 defaultThresholds [c10badRow]
     ⟨c10badRow, List.mem_cons_self _ _, by decide⟩⟩

